import Mathlib

/-!
Verification development for the autopv-cli data-handling pipeline.

The TypeScript sources are embedded shallowly:
* strings are `List Char`; the JS regular expressions used by
  `src/utils/scrub.ts` are embedded as an explicit backtracking matcher
  (`RE`, `mrun`) with JavaScript semantics (leftmost match, greedy
  quantifiers, left-biased alternation, `\b` word boundaries computed on
  the original input); `String.prototype.replace` with a global regex is
  embedded as `replaceAll`, and `String.prototype.match` counting as
  `countMatches`.  Character classes are restricted to the ASCII
  repertoire actually exercised by the patterns.
* hierarchical JS values are the inductive `Value`; JS object-property
  assignment (overwrite at first occurrence, else append) is `jsInsert`.
* fallible/IO-bound code (file cleanup, the classifier's service call)
  is modelled as explicit state passing / a step type.
-/

namespace Autopv

/-- ASCII decimal digit. -/
def isDigitC (c : Char) : Bool := 48 ≤ c.toNat ∧ c.toNat ≤ 57

/-- ASCII upper-case letter. -/
def isUpperC (c : Char) : Bool := 65 ≤ c.toNat ∧ c.toNat ≤ 90

/-- ASCII lower-case letter. -/
def isLowerC (c : Char) : Bool := 97 ≤ c.toNat ∧ c.toNat ≤ 122

/-- ASCII letter. -/
def isAlphaC (c : Char) : Bool := isUpperC c || isLowerC c

/-- ASCII letter or digit. -/
def isAlnumC (c : Char) : Bool := isAlphaC c || isDigitC c

/-- JS regex word character (`\w`): letter, digit or underscore. -/
def isWordC (c : Char) : Bool := isAlnumC c || c = '_'

/-- JS regex whitespace (`\s`), ASCII part. -/
def isSpaceC (c : Char) : Bool :=
  c = ' ' || c = '\t' || c = '\n' || c = '\r' || c.toNat = 11 || c.toNat = 12

/-- Regular-expression syntax, covering exactly the constructs used by the
patterns in `src/utils/scrub.ts`.  Unbounded repetition only occurs over
single-character classes there, which `starCls` reflects. -/
inductive RE where
  | eps : RE
  | cls (p : Char → Bool) : RE
  | seq (a b : RE) : RE
  | alt (a b : RE) : RE
  | opt (a : RE) : RE
  | starCls (p : Char → Bool) : RE
  | wb : RE
  | grp (a : RE) : RE

/-- Word boundary test between the previous character (`none` at the start
of the string) and the rest of the string. -/
def wordBoundary (prev : Option Char) (s : List Char) : Bool :=
  let pw := match prev with | none => false | some c => isWordC c
  let nw := match s with | [] => false | c :: _ => isWordC c
  pw ≠ nw

/-- Greedy matcher for `p*`: consume as many `p`-characters as possible,
backtracking one at a time into the continuation. -/
def mstar (p : Char → Bool) (prev : Option Char) (s : List Char)
    (g : Option (List Char))
    (k : Option Char → List Char → Option (List Char) → Option α) : Option α :=
  match s with
  | [] => k prev [] g
  | c :: rest =>
    if p c then
      match mstar p (some c) rest g k with
      | some r => some r
      | none => k prev s g
    else k prev s g

/-- Backtracking matcher in continuation-passing style.  `prev` is the
character just before the current position (for `\b`), `g` the text
captured by group 1 so far.  Alternation is left-biased and `opt` is
greedy, as in JavaScript. -/
def mrun : RE → Option Char → List Char → Option (List Char) →
    (Option Char → List Char → Option (List Char) → Option α) → Option α
  | .eps, prev, s, g, k => k prev s g
  | .cls p, _, s, g, k =>
    match s with
    | [] => none
    | c :: rest => if p c then k (some c) rest g else none
  | .seq a b, prev, s, g, k =>
    mrun a prev s g (fun p2 s2 g2 => mrun b p2 s2 g2 k)
  | .alt a b, prev, s, g, k =>
    match mrun a prev s g k with
    | some r => some r
    | none => mrun b prev s g k
  | .opt a, prev, s, g, k =>
    match mrun a prev s g k with
    | some r => some r
    | none => k prev s g
  | .starCls p, prev, s, g, k => mstar p prev s g k
  | .wb, prev, s, g, k => if wordBoundary prev s then k prev s g else none
  | .grp a, prev, s, g, k =>
    mrun a prev s g (fun p2 s2 _ => k p2 s2 (some (s.take (s.length - s2.length))))

/-- Try to match `r` at the current position: on success, the length of the
match and the text captured by group 1. -/
def matchAt (r : RE) (prev : Option Char) (s : List Char) :
    Option (Nat × Option (List Char)) :=
  mrun r prev s none (fun _ s2 g => some (s.length - s2.length, g))

/-- One pass of the global-replace scan (`String.prototype.replace` with a
`g` regex): find non-overlapping matches left to right on the input string
and splice in the replacement, which may use the group-1 capture.  `\b`
always sees the characters of the original input.  The scan is written
with a fuel argument (one unit per scan step, each step consumes at least
one character) so that it is structurally recursive; callers pass the
string length, which always suffices. -/
def replaceScan (r : RE) (repl : Option (List Char) → List Char) :
    Nat → Option Char → List Char → List Char
  | _, _, [] => []
  | 0, _, s => s
  | fuel + 1, prev, c :: rest =>
    match matchAt r prev (c :: rest) with
    | none => c :: replaceScan r repl fuel (some c) rest
    | some (len, g) =>
      if len = 0 then
        -- empty match: emit replacement, advance one character (JS lastIndex bump);
        -- never reached by the scrub patterns, which are all non-nullable
        repl g ++ c :: replaceScan r repl fuel (some c) rest
      else
        repl g ++ replaceScan r repl fuel (((c :: rest).take len).getLast?)
          ((c :: rest).drop len)

/-- Global replace over a whole string. -/
def replaceAll (r : RE) (repl : Option (List Char) → List Char)
    (s : List Char) : List Char :=
  replaceScan r repl s.length none s

/-- The number of matches found by the same global scan
(`String.prototype.match` with a `g` regex, `.length` of the result). -/
def countScan (r : RE) : Nat → Option Char → List Char → Nat
  | _, _, [] => 0
  | 0, _, _ => 0
  | fuel + 1, prev, c :: rest =>
    match matchAt r prev (c :: rest) with
    | none => countScan r fuel (some c) rest
    | some (len, _) =>
      if len = 0 then
        1 + countScan r fuel (some c) rest
      else
        1 + countScan r fuel (((c :: rest).take len).getLast?) ((c :: rest).drop len)

/-- Number of global matches of `r` in `s`. -/
def countMatches (r : RE) (s : List Char) : Nat :=
  countScan r s.length none s

/-- The `n`-fold repetition `r{n}`. -/
def repN : Nat → RE → RE
  | 0, _ => .eps
  | n + 1, r => .seq r (repN n r)

/-- The `p+` over a character class. -/
def plusCls (p : Char → Bool) : RE := .seq (.cls p) (.starCls p)

/-- The `p{n,}` over a character class (greedy). -/
def atLeast (n : Nat) (p : Char → Bool) : RE := .seq (repN n (.cls p)) (.starCls p)

/-- The `p{1,3}` over a character class (greedy). -/
def rep1to3 (p : Char → Bool) : RE :=
  .seq (.cls p) (.opt (.seq (.cls p) (.opt (.cls p))))

/-- Literal string (case-sensitive). -/
def litRE (s : String) : RE :=
  (s.toList.map (fun ch => RE.cls (fun c => c = ch))).foldr .seq .eps

/-- Literal string under the `i` flag (ASCII case-insensitive). -/
def litiRE (s : String) : RE :=
  (s.toList.map (fun ch => RE.cls (fun c => c.toLower = ch.toLower))).foldr .seq .eps

/-- Email local-part class `[A-Za-z0-9._%+-]`. -/
def emailLocalC (c : Char) : Bool :=
  isAlnumC c || c = '.' || c = '_' || c = '%' || c = '+' || c = '-'

/-- Email domain class `[A-Za-z0-9.-]`. -/
def emailDomC (c : Char) : Bool := isAlnumC c || c = '.' || c = '-'

/-- Email TLD class `[A-Z|a-z]` (the source class literally includes `|`). -/
def emailTldC (c : Char) : Bool := isUpperC c || c = '|' || isLowerC c

/-- Pattern `/\b[A-Za-z0-9._%+-]+@[A-Za-z0-9.-]+\.[A-Z|a-z]{2,}\b/g` -/
def emailRE : RE :=
  .seq .wb (.seq (plusCls emailLocalC) (.seq (.cls (fun c => c = '@'))
    (.seq (plusCls emailDomC) (.seq (.cls (fun c => c = '.'))
      (.seq (atLeast 2 emailTldC) .wb)))))

/-- Phone separator class `[-.\s]`. -/
def phoneSepC (c : Char) : Bool := c = '-' || c = '.' || isSpaceC c

/-- Pattern `/(\+?1[-.\s]?)?\(?([0-9]{3})\)?[-.\s]?([0-9]{3})[-.\s]?([0-9]{4})/g` -/
def phoneRE : RE :=
  .seq (.opt (.seq (.opt (.cls (fun c => c = '+')))
      (.seq (.cls (fun c => c = '1')) (.opt (.cls phoneSepC)))))
  (.seq (.opt (.cls (fun c => c = '(')))
  (.seq (repN 3 (.cls isDigitC))
  (.seq (.opt (.cls (fun c => c = ')')))
  (.seq (.opt (.cls phoneSepC))
  (.seq (repN 3 (.cls isDigitC))
  (.seq (.opt (.cls phoneSepC)) (repN 4 (.cls isDigitC))))))))

/-- Pattern `/\b\d{3}-?\d{2}-?\d{4}\b/g` -/
def ssnRE : RE :=
  .seq .wb (.seq (repN 3 (.cls isDigitC)) (.seq (.opt (.cls (fun c => c = '-')))
    (.seq (repN 2 (.cls isDigitC)) (.seq (.opt (.cls (fun c => c = '-')))
      (.seq (repN 4 (.cls isDigitC)) .wb)))))

/-- Credit-card separator class `[-\s]`. -/
def ccSepC (c : Char) : Bool := c = '-' || isSpaceC c

/-- Pattern `/\b(?:\d{4}[-\s]?){3}\d{4}\b/g` -/
def creditCardRE : RE :=
  .seq .wb (.seq (repN 3 (.seq (repN 4 (.cls isDigitC)) (.opt (.cls ccSepC))))
    (.seq (repN 4 (.cls isDigitC)) .wb))

/-- Pattern `/\b(?:[0-9]{1,3}\.){3}[0-9]{1,3}\b/g` -/
def ipAddressRE : RE :=
  .seq .wb (.seq (repN 3 (.seq (rep1to3 isDigitC) (.cls (fun c => c = '.'))))
    (.seq (rep1to3 isDigitC) .wb))

/-- API-key value class `[a-zA-Z0-9_-]`. -/
def apiValC (c : Char) : Bool := isAlnumC c || c = '_' || c = '-'

/-- Optional `[_-]` in the key names. -/
def apiSep : RE := .opt (.cls (fun c => c = '_' || c = '-'))

/-- Quote class `['"]`. -/
def quoteC (c : Char) : Bool := c = '\'' || c = '"'

/-- Pattern `/\b(?:api[_-]?key|secret[_-]?key|access[_-]?token)\s*[:=]\s*['"]?([a-zA-Z0-9_-]+)['"]?/gi`
— group 1 is the token value. -/
def apiKeyRE : RE :=
  .seq .wb (.seq
    (.alt (.seq (litiRE "api") (.seq apiSep (litiRE "key")))
      (.alt (.seq (litiRE "secret") (.seq apiSep (litiRE "key")))
        (.seq (litiRE "access") (.seq apiSep (litiRE "token")))))
    (.seq (.starCls isSpaceC) (.seq (.cls (fun c => c = ':' || c = '='))
      (.seq (.starCls isSpaceC) (.seq (.opt (.cls quoteC))
        (.seq (.grp (plusCls apiValC)) (.opt (.cls quoteC))))))))

/-- Pattern `/\bghp_[a-zA-Z0-9]{36}\b/g` -/
def githubTokenRE : RE :=
  .seq .wb (.seq (litRE "ghp_") (.seq (repN 36 (.cls isAlnumC)) .wb))

/-- Pattern `/\b(?:sk|pk)_(?:test|live)_[a-zA-Z0-9]{24,}\b/g` -/
def stripeKeyRE : RE :=
  .seq .wb (.seq (.alt (litRE "sk") (litRE "pk")) (.seq (.cls (fun c => c = '_'))
    (.seq (.alt (litRE "test") (litRE "live")) (.seq (.cls (fun c => c = '_'))
      (.seq (atLeast 24 isAlnumC) .wb)))))

/-- The `ScrubConfig` from `src/utils/scrub.ts`: all fields optional. -/
structure ScrubConfig where
  maskEmails : Option Bool := none
  maskPhones : Option Bool := none
  maskSSNs : Option Bool := none
  maskCreditCards : Option Bool := none
  maskIPAddresses : Option Bool := none
  maskCustomPatterns : Option (List RE) := none
  placeholder : Option (List Char) := none

/-- The `Required<ScrubConfig>` after the constructor applied the `??`
defaults. -/
structure ResolvedConfig where
  maskEmails : Bool
  maskPhones : Bool
  maskSSNs : Bool
  maskCreditCards : Bool
  maskIPAddresses : Bool
  maskCustomPatterns : List RE
  placeholder : List Char

/-- The `PIIScrubber` constructor: fill in the documented defaults. -/
def resolveConfig (c : ScrubConfig) : ResolvedConfig where
  maskEmails := c.maskEmails.getD true
  maskPhones := c.maskPhones.getD true
  maskSSNs := c.maskSSNs.getD true
  maskCreditCards := c.maskCreditCards.getD true
  maskIPAddresses := c.maskIPAddresses.getD false
  maskCustomPatterns := c.maskCustomPatterns.getD []
  placeholder := c.placeholder.getD "[REDACTED]".toList

/-- The fully-defaulted configuration. -/
def defaultConfig : ResolvedConfig := resolveConfig {}

/-- The `PIIScrubber.scrubString`: the sequence of global-replace passes, in
source order.  The credential passes are applied unconditionally; the
`apiKey` replacement template is `` `$1: ${placeholder}` `` where group 1
captured the token value. -/
def scrubStringL (cfg : ResolvedConfig) (text : List Char) : List Char :=
  let ph := cfg.placeholder
  let s1 := if cfg.maskEmails then replaceAll emailRE (fun _ => ph) text else text
  let s2 := if cfg.maskPhones then replaceAll phoneRE (fun _ => ph) s1 else s1
  let s3 := if cfg.maskSSNs then replaceAll ssnRE (fun _ => ph) s2 else s2
  let s4 := if cfg.maskCreditCards then replaceAll creditCardRE (fun _ => ph) s3 else s3
  let s5 := if cfg.maskIPAddresses then replaceAll ipAddressRE (fun _ => ph) s4 else s4
  let s6 := replaceAll apiKeyRE (fun g => g.getD [] ++ (colonSep ++ ph)) s5
  let s7 := replaceAll githubTokenRE (fun _ => ph) s6
  let s8 := replaceAll stripeKeyRE (fun _ => ph) s7
  cfg.maskCustomPatterns.foldl (fun acc r => replaceAll r (fun _ => ph) acc) s8
where
  /-- The literal `": "` between the captured value and the placeholder. -/
  colonSep : List Char := [':', ' ']

/-- String-typed wrapper for `scrubString`. -/
def scrubString (cfg : ScrubConfig) (text : String) : String :=
  ⟨scrubStringL (resolveConfig cfg) text.data⟩

/-- The `String`-typed scrub of a single string under a resolved config. -/
def scrubStr (cfg : ResolvedConfig) (s : String) : String :=
  ⟨scrubStringL cfg s.data⟩

/-- The statistics record returned by `PIIScrubber.getScrubStats`.
`totalReductions` is a length difference and may be negative (the apiKey
rewrite can lengthen the string), hence `Int`. -/
structure ScrubStats where
  emailsFound : Nat
  phonesFound : Nat
  ssnsFound : Nat
  creditCardsFound : Nat
  ipAddressesFound : Nat
  apiKeysFound : Nat
  totalReductions : Int
deriving DecidableEq, Repr

/-- The `PIIScrubber.getScrubStats`: per-category match counts on the original
string plus the byte-length delta. -/
def getScrubStats (original scrubbed : List Char) : ScrubStats where
  emailsFound := countMatches emailRE original
  phonesFound := countMatches phoneRE original
  ssnsFound := countMatches ssnRE original
  creditCardsFound := countMatches creditCardRE original
  ipAddressesFound := countMatches ipAddressRE original
  apiKeysFound := countMatches apiKeyRE original + countMatches githubTokenRE original
    + countMatches stripeKeyRE original
  totalReductions := (original.length : Int) - (scrubbed.length : Int)

/-- Hierarchical JS value: the closed tagged-variant view of the `any`
data the scrubber and classifier walk.  Numbers are modelled as `Int`
(no claim depends on float behaviour). -/
inductive Value where
  | null : Value
  | undef : Value
  | bool (b : Bool) : Value
  | num (n : Int) : Value
  | str (s : String) : Value
  | arr (xs : List Value) : Value
  | obj (fs : List (String × Value)) : Value

/-- JS object-property assignment on an entry list: overwrite the value at
the first occurrence of the key, keeping its position, else append. -/
def jsInsert (fs : List (String × Value)) (k : String) (v : Value) :
    List (String × Value) :=
  match fs with
  | [] => [(k, v)]
  | (k2, v2) :: t => if k2 = k then (k2, v) :: t else (k2, v2) :: jsInsert t k v

mutual

/-- The `PIIScrubber.scrubObject`: null/undefined and numbers/booleans pass
through, strings are scrubbed, arrays map element-wise, object entries are
rebuilt into a fresh object with scrubbed keys (JS assignment semantics). -/
def scrubObject (cfg : ResolvedConfig) : Value → Value
  | .null => .null
  | .undef => .undef
  | .bool b => .bool b
  | .num n => .num n
  | .str s => .str (scrubStr cfg s)
  | .arr xs => .arr (scrubList cfg xs)
  | .obj fs => .obj (scrubFields cfg fs [])

/-- Element-wise scrub of an array's members, preserving order. -/
def scrubList (cfg : ResolvedConfig) : List Value → List Value
  | [] => []
  | v :: t => scrubObject cfg v :: scrubList cfg t

/-- The `for (const [key, value] of Object.entries(obj))` loop: assign
`scrubbed[scrubbedKey] = scrubObject(value)` into the accumulator. -/
def scrubFields (cfg : ResolvedConfig) :
    List (String × Value) → List (String × Value) → List (String × Value)
  | [], acc => acc
  | (k, v) :: t, acc =>
    scrubFields cfg t (jsInsert acc (scrubStr cfg k) (scrubObject cfg v))

end

/-- The `scrubPII`: the convenience entry point builds a scrubber from the
config and returns `scrubber.scrubObject(data)` — the scrubbed value
itself, not a record. -/
def scrubPII (data : Value) (cfg : ScrubConfig := {}) : Value :=
  scrubObject (resolveConfig cfg) data

/-- Property lookup on an object value (`undefined` reads are `none`). -/
def lookupField : Value → String → Option Value
  | .obj fs, k => (fs.find? (fun kv => kv.1 = k)).map (·.2)
  | _, _ => none

/-! Section: GDPR classifier (`GDPRClassifier`) -/

/-- JS `typeof`. -/
def jsTypeof : Value → String
  | .null => "object"
  | .undef => "undefined"
  | .bool _ => "boolean"
  | .num _ => "number"
  | .str _ => "string"
  | .arr _ => "object"
  | .obj _ => "object"

/-- The `typeof v === 'object' && v !== null` (arrays included). -/
def isObjLike : Value → Bool
  | .arr _ => true
  | .obj _ => true
  | _ => false

/-- The `prefix.split('.').length`: one more than the number of dots (a JS
split on a single-character separator always yields dots+1 pieces,
counting empty ones). -/
def dotSegments (s : String) : Nat := (s.data.filter (fun c => c = '.')).length + 1

/-- The `v === null || v === undefined`. -/
def isNullish : Value → Bool
  | .null => true
  | .undef => true
  | _ => false

mutual

/-- The `GDPRClassifier.extractFieldPaths`: object keys contribute dotted
segments, arrays contribute an index-0 representative path; recursion into
object values is gated by `prefix.split('.').length < 3`, recursion into a
first array element is not depth-gated. -/
def extractFieldPaths (v : Value) (pre : String) : List String :=
  match v with
  | .null => []
  | .undef => []
  | .obj fs => extractFields fs pre
  | .arr [] => []
  | .arr (x :: _) =>
    let fp := pre ++ "[0]"
    fp :: (if isObjLike x then extractFieldPaths x fp else [])
  | _ => []

/-- The entry loop of `extractFieldPaths` over `Object.entries`. -/
def extractFields (fs : List (String × Value)) (pre : String) : List String :=
  match fs with
  | [] => []
  | (k, v) :: t =>
    let fp := if pre = "" then k else pre ++ "." ++ k
    (fp :: (if isObjLike v ∧ dotSegments pre < 3
      then extractFieldPaths v fp else [])) ++ extractFields t pre

end

mutual

/-- The `GDPRClassifier.createDataSample`: at the depth cutoff or on
null/undefined return the `typeof` tag; arrays sample their first element;
objects sample at most their first 5 entries; every scalar becomes its
`typeof` tag. -/
def createDataSample (v : Value) (maxDepth currentDepth : Nat) : Value :=
  if decide (maxDepth ≤ currentDepth) || isNullish v then .str (jsTypeof v)
  else
    match v with
    | .arr [] => .arr []
    | .arr (x :: _) => .arr [createDataSample x maxDepth (currentDepth + 1)]
    | .obj fs => .obj (sampleFields fs maxDepth currentDepth 0 [])
    | w => .str (jsTypeof w)

/-- The sampling loop over `Object.entries` with `if (count >= 5) break`. -/
def sampleFields (fs : List (String × Value)) (maxDepth currentDepth count : Nat)
    (acc : List (String × Value)) : List (String × Value) :=
  match fs with
  | [] => acc
  | (k, v) :: t =>
    if 5 ≤ count then acc
    else sampleFields t maxDepth currentDepth (count + 1)
      (jsInsert acc k (createDataSample v maxDepth (currentDepth + 1)))

end

/-- The `GDPRClassification`: attributes are `Option String` so that a missing
attribute (`undefined` in the parsed JSON) is representable; JS truthiness
of an attribute is `attrTruthy`. -/
structure GDPRClassification where
  field : Option String
  article : Option String
  reasoning : Option String
  dataType : Option String
  sensitivity : Option String
deriving DecidableEq, Repr

/-- JS truthiness of an optional string attribute: present and non-empty. -/
def attrTruthy : Option String → Bool
  | none => false
  | some s => s ≠ ""

/-- The validation predicate of `classifyData`:
`c.field && c.article && c.reasoning && c.dataType && c.sensitivity`. -/
def isValidClassification (c : GDPRClassification) : Bool :=
  attrTruthy c.field && attrTruthy c.article && attrTruthy c.reasoning &&
    attrTruthy c.dataType && attrTruthy c.sensitivity

/-- The `[...new Set(xs)]`: deduplicate keeping first occurrences in order. -/
def jsSetDedup : List (Option String) → List (Option String)
  | [] => []
  | x :: t => x :: jsSetDedup (t.filter (· ≠ x))
termination_by l => l.length
decreasing_by
  simp only [List.length_cons]
  exact Nat.lt_succ_of_le (List.length_filter_le _ t)

/-- Summary block of a `ClassificationResult`. -/
structure ClassificationSummary where
  totalFields : Nat
  articlesFound : List (Option String)
  highSensitivityFields : Nat
  processingTime : Nat
deriving DecidableEq, Repr

/-- The `ClassificationResult`. -/
structure ClassificationResult where
  classifications : List GDPRClassification
  summary : ClassificationSummary
deriving DecidableEq, Repr

/-- The empty result returned when no field paths were extracted. -/
def emptyClassificationResult (elapsed : Nat) : ClassificationResult where
  classifications := []
  summary := { totalFields := 0, articlesFound := [],
               highSensitivityFields := 0, processingTime := elapsed }

/-- The post-parse processing of `classifyData` (validation filter and
summary construction); `fieldPaths` is the extracted path list of the run
and `parsed` the JSON-parsed response. -/
def processClassifications (fieldPaths : List String)
    (parsed : List GDPRClassification) (elapsed : Nat) : ClassificationResult :=
  let validClassifications := parsed.filter isValidClassification
  { classifications := validClassifications,
    summary := {
      totalFields := fieldPaths.length,
      articlesFound := jsSetDedup (validClassifications.map (·.article)),
      highSensitivityFields :=
        (validClassifications.filter (fun c => c.sensitivity = some "high")).length,
      processingTime := elapsed } }

/-- The pre-call control flow of `classifyData`: either the early empty
result (no service call, no error possible) or the request payload handed
to the external reasoning service. -/
inductive ClassifyStep where
  | early (r : ClassificationResult) : ClassifyStep
  | callService (fieldPaths : List String) (sample : Value) : ClassifyStep

/-- Lines 100–119 of `classifyData`: extract field paths; on an empty list
return the empty result before any service interaction, otherwise build
the request from the paths and the structural sample. -/
def classifyDataPre (scrubbedData : Value) (elapsed : Nat) : ClassifyStep :=
  let fieldPaths := extractFieldPaths scrubbedData ""
  if fieldPaths.length = 0 then .early (emptyClassificationResult elapsed)
  else .callService fieldPaths (createDataSample scrubbedData 2 0)

/-! Section: Stream processor (`StreamProcessor`) -/

/-- The chunking loop of `processInChunks` with structural fuel (one unit
per chunk, each chunk consumes at least one item for `k ≥ 1`). -/
def chunksGoF (k : Nat) : Nat → List α → List (List α)
  | _, [] => []
  | 0, _ => []
  | fuel + 1, x :: t => ((x :: t).take k) :: chunksGoF k fuel ((x :: t).drop k)

/-- The chunking loop of `processInChunks`: `slice(i, i + chunkSize)` for
`i = 0, k, 2k, …`.  The JS loop does not terminate for `chunkSize = 0`;
the embedding returns `[]` there (the spec only constrains `K ≥ 1`). -/
def chunksGo (k : Nat) (l : List α) : List (List α) :=
  if k = 0 then [] else chunksGoF k l.length l

/-- The `StreamProcessor.processInChunks` with a pure chunk worker: results of
successive chunks are concatenated in order. -/
def processInChunks (items : List α) (k : Nat) (w : List α → List β) : List β :=
  (chunksGo k items).flatMap w

/-- The indexed loop of `processSequentially`. -/
def processSequentiallyGo (w : α → Nat → β) (i : Nat) : List α → List β
  | [] => []
  | x :: t => w x i :: processSequentiallyGo w (i + 1) t

/-- The `StreamProcessor.processSequentially` with a pure item worker:
`worker(items[i], i)` one at a time, results in input order. -/
def processSequentially (items : List α) (w : α → Nat → β) : List β :=
  processSequentiallyGo w 0 items

/-! Section: File cleanup (`FileCleanup`) -/

/-- A directory entry: name, modification time (ms since epoch), size. -/
structure FsFile where
  name : String
  mtimeMs : Int
  size : Nat
deriving DecidableEq, Repr

/-- The directory the cleanup targets, modelled as an existence flag plus
the listing in directory order. -/
structure DirState where
  dirExists : Bool
  files : List FsFile
deriving DecidableEq, Repr

/-- The `CleanupResult` from `src/utils/cleanup.ts` (the error-free model never
populates `errors`). -/
structure CleanupResult where
  filesScanned : Nat
  filesDeleted : Nat
  deletedFiles : List String
  totalSizeFreed : Nat
  errors : List String
deriving DecidableEq, Repr

/-- The all-zero initial result. -/
def emptyCleanupResult : CleanupResult :=
  { filesScanned := 0, filesDeleted := 0, deletedFiles := [],
    totalSizeFreed := 0, errors := [] }

/-- JS `.` (no `s` flag): any character but a line terminator. -/
def dotChar (c : Char) : Bool := c ≠ '\n' ∧ c ≠ '\r'

/-- Anchored `^pre.*suf$` test, as used by the evidence-file patterns. -/
def matchesAnchored (pre suf name : String) : Bool :=
  name.startsWith pre && name.endsWith suf
    && pre.length + suf.length ≤ name.length
    && (((name.toList.drop pre.length).take
          (name.length - pre.length - suf.length)).all dotChar)

/-- The evidence-artifact name patterns:
`/^evidence_.*\.pdf$/`, `/^mapping_.*\.csv$/`, `/^evidence_pack_.*\.zip$/`. -/
def isEvidenceFile (name : String) : Bool :=
  matchesAnchored "evidence_" ".pdf" name
    || matchesAnchored "mapping_" ".csv" name
    || matchesAnchored "evidence_pack_" ".zip" name

/-- The per-file loop of `cleanupOldFiles` on the error-free filesystem
model: non-evidence names are skipped untouched; evidence files are
scanned, and deleted (with name and size recorded) when strictly older
than the cutoff.  Returns the remaining directory listing and the result. -/
def cleanupGo (cutoff : Int) : List FsFile → CleanupResult →
    (List FsFile × CleanupResult)
  | [], res => ([], res)
  | f :: t, res =>
    if isEvidenceFile f.name then
      let res1 := { res with filesScanned := res.filesScanned + 1 }
      if f.mtimeMs < cutoff then
        cleanupGo cutoff t
          { res1 with filesDeleted := res1.filesDeleted + 1,
                      deletedFiles := res1.deletedFiles ++ [f.name],
                      totalSizeFreed := res1.totalSizeFreed + f.size }
      else
        (f :: (cleanupGo cutoff t res1).1, (cleanupGo cutoff t res1).2)
    else
      (f :: (cleanupGo cutoff t res).1, (cleanupGo cutoff t res).2)

/-- The `FileCleanup.cleanupOldFiles`: a missing directory yields the empty
result; otherwise every listed file is processed against the age cutoff
`now - maxAgeHours * 60 * 60 * 1000`. -/
def cleanupOldFiles (st : DirState) (nowMs : Int) (maxAgeHours : Nat) :
    DirState × CleanupResult :=
  if st.dirExists then
    let cutoff := nowMs - (maxAgeHours : Int) * 3600000
    ({ st with files := (cleanupGo cutoff st.files emptyCleanupResult).1 },
      (cleanupGo cutoff st.files emptyCleanupResult).2)
  else (st, emptyCleanupResult)

/-! Section: Auxiliary predicates used by the theorems -/

/-- The `pat` is a prefix of `s`. -/
def startsWithL : List Char → List Char → Bool
  | [], _ => true
  | _ :: _, [] => false
  | p :: ps, c :: cs => p = c && startsWithL ps cs

/-- The `pat` occurs as a contiguous substring of `s`. -/
def hasSubstr (pat : List Char) : List Char → Bool
  | [] => startsWithL pat []
  | c :: rest => startsWithL pat (c :: rest) || hasSubstr pat rest

/-- All pattern passes applied by the default configuration find no match
in `s` (the IP pass is off by default; no custom patterns). -/
def stringClean (s : List Char) : Bool :=
  countMatches emailRE s == 0 && countMatches phoneRE s == 0 &&
  countMatches ssnRE s == 0 && countMatches creditCardRE s == 0 &&
  countMatches apiKeyRE s == 0 && countMatches githubTokenRE s == 0 &&
  countMatches stripeKeyRE s == 0

mutual

/-- Every string in the value (leaves and object keys) is clean, and every
object's key list is duplicate-free. -/
def valueClean : Value → Bool
  | .null => true
  | .undef => true
  | .bool _ => true
  | .num _ => true
  | .str s => stringClean s.data
  | .arr xs => listClean xs
  | .obj fs => decide (fs.map Prod.fst).Nodup && fieldsClean fs

/-- The `valueClean` over an array's members. -/
def listClean : List Value → Bool
  | [] => true
  | v :: t => valueClean v && listClean t

/-- The `valueClean` over an object's entries (keys and values). -/
def fieldsClean : List (String × Value) → Bool
  | [] => true
  | (k, v) :: t => stringClean k.data && valueClean v && fieldsClean t

end

/-! Section: Scan lemmas -/

/-- If the global scan finds no match, a global replace returns the string
unchanged (for every fuel value — exhausted fuel also returns the input). -/
theorem replaceScan_eq_of_countScan_zero (r : RE) (repl : Option (List Char) → List Char) :
    ∀ (fuel : Nat) (s : List Char) (prev : Option Char),
      countScan r fuel prev s = 0 → replaceScan r repl fuel prev s = s := by
  intro fuel
  induction fuel with
  | zero => intro s prev _; cases s <;> rfl
  | succ f ih =>
    intro s prev h
    cases s with
    | nil => rfl
    | cons c rest =>
      rw [countScan] at h
      rw [replaceScan]
      cases hm : matchAt r prev (c :: rest) with
      | none =>
        simp only [hm]
        rw [hm] at h
        simp only [] at h
        exact congrArg (c :: ·) (ih rest (some c) h)
      | some p =>
        rw [hm] at h
        rcases p with ⟨len, g⟩
        simp only [] at h
        split at h <;> omega

/-- A global replace leaves the input unchanged when the pattern has no
global match in it. -/
theorem replaceAll_eq_of_countMatches_zero (r : RE) (repl : Option (List Char) → List Char)
    (s : List Char) (h : countMatches r s = 0) : replaceAll r repl s = s :=
  replaceScan_eq_of_countScan_zero r repl s.length s none h

/-- The character just before the position that follows prefix `a`, when
the scan entered `a` with previous character `p0`. -/
def prevAfter (p0 : Option Char) (a : List Char) : Option Char :=
  match a with
  | [] => p0
  | _ :: _ => a.getLast?

/-- If some real position of the string admits a match, the global scan
counts at least one match. -/
theorem countScan_pos (r : RE) :
    ∀ (a : List Char) (p0 : Option Char) (c : Char) (rest : List Char),
      matchAt r (prevAfter p0 a) (c :: rest) ≠ none →
      1 ≤ countScan r (a ++ c :: rest).length p0 (a ++ c :: rest) := by
  intro a
  induction a with
  | nil =>
    intro p0 c rest hm
    rw [List.nil_append]
    simp only [List.length_cons]
    rw [countScan]
    cases h : matchAt r p0 (c :: rest) with
    | none => exact absurd h (by simpa [prevAfter] using hm)
    | some p =>
      rcases p with ⟨len, g⟩
      simp only []
      split <;> omega
  | cons x a' ih =>
    intro p0 c rest hm
    rw [List.cons_append]
    simp only [List.length_cons]
    rw [countScan]
    cases h : matchAt r p0 (x :: (a' ++ c :: rest)) with
    | none =>
      simp only []
      have hm' : matchAt r (prevAfter (some x) a') (c :: rest) ≠ none := by
        cases a' with
        | nil => simpa [prevAfter] using hm
        | cons y t => simpa [prevAfter, List.getLast?_cons_cons] using hm
      exact ih (some x) c rest hm'
    | some p =>
      rcases p with ⟨len, g⟩
      simp only []
      split <;> omega

/-- A string with a match at some position has a positive global count. -/
theorem countMatches_pos (r : RE) (a b : List Char) (hb : b ≠ [])
    (hm : matchAt r a.getLast? b ≠ none) : 1 ≤ countMatches r (a ++ b) := by
  cases b with
  | nil => exact absurd rfl hb
  | cons c rest =>
    unfold countMatches
    apply countScan_pos r a none c rest
    cases a with
    | nil => simpa [prevAfter] using hm
    | cons x t => simpa [prevAfter] using hm

/-! Section: Clean strings and values are fixed points of scrubbing -/

/-- A clean string passes every default-configuration scrub pass
unchanged. -/
theorem scrubStringL_eq_of_clean (s : List Char) (h : stringClean s = true) :
    scrubStringL defaultConfig s = s := by
  unfold stringClean at h
  simp only [Bool.and_eq_true, beq_iff_eq] at h
  obtain ⟨⟨⟨⟨⟨⟨he, hp⟩, hs⟩, hc⟩, ha⟩, hg⟩, hst⟩ := h
  have step : ∀ (r : RE) (repl : Option (List Char) → List Char),
      countMatches r s = 0 → replaceAll r repl s = s :=
    fun r repl hz => replaceAll_eq_of_countMatches_zero r repl s hz
  show List.foldl (fun acc r => replaceAll r (fun _ => defaultConfig.placeholder) acc)
    (replaceAll stripeKeyRE (fun _ => defaultConfig.placeholder)
      (replaceAll githubTokenRE (fun _ => defaultConfig.placeholder)
        (replaceAll apiKeyRE
          (fun g => g.getD [] ++ (scrubStringL.colonSep ++ defaultConfig.placeholder))
          (replaceAll creditCardRE (fun _ => defaultConfig.placeholder)
            (replaceAll ssnRE (fun _ => defaultConfig.placeholder)
              (replaceAll phoneRE (fun _ => defaultConfig.placeholder)
                (replaceAll emailRE (fun _ => defaultConfig.placeholder) s))))))) [] = s
  rw [step emailRE _ he, step phoneRE _ hp, step ssnRE _ hs, step creditCardRE _ hc,
      step apiKeyRE _ ha, step githubTokenRE _ hg, step stripeKeyRE _ hst]
  rfl

/-- A clean string is scrubbed to itself (`String` version). -/
theorem scrubStr_eq_of_clean (s : String) (h : stringClean s.data = true) :
    scrubStr defaultConfig s = s := by
  unfold scrubStr
  rw [scrubStringL_eq_of_clean s.data h]

/-! Section: Structure of `scrubObject` -/

/-- Assigning a fresh key appends the entry. -/
theorem jsInsert_of_not_mem :
    ∀ (acc : List (String × Value)) (k : String) (v : Value),
      k ∉ acc.map Prod.fst → jsInsert acc k v = acc ++ [(k, v)] := by
  intro acc
  induction acc with
  | nil => intro k v _; rfl
  | cons kv t ih =>
    intro k v hk
    rcases kv with ⟨k2, v2⟩
    simp only [List.map_cons, List.mem_cons] at hk
    push_neg at hk
    simp only [jsInsert]
    rw [if_neg (fun h => hk.1 h.symm), ih k v hk.2]
    simp

/-- The `scrubList` is the element-wise map of `scrubObject`. -/
theorem scrubList_eq_map (cfg : ResolvedConfig) :
    ∀ xs : List Value, scrubList cfg xs = xs.map (scrubObject cfg) := by
  intro xs
  induction xs with
  | nil => rfl
  | cons v t ih => rw [scrubList, ih]; rfl

/-- When the scrubbed keys are pairwise distinct and avoid the
accumulator, the entry loop of `scrubObject` appends the scrubbed entries
in order. -/
theorem scrubFields_eq_append (cfg : ResolvedConfig) :
    ∀ (fs acc : List (String × Value)),
      (fs.map (fun kv => scrubStr cfg kv.1)).Nodup →
      (∀ k, k ∈ fs.map (fun kv => scrubStr cfg kv.1) → k ∉ acc.map Prod.fst) →
      scrubFields cfg fs acc =
        acc ++ fs.map (fun kv => (scrubStr cfg kv.1, scrubObject cfg kv.2)) := by
  intro fs
  induction fs with
  | nil => intro acc _ _; simp [scrubFields]
  | cons kv t ih =>
    intro acc hnd hdisj
    rcases kv with ⟨k, v⟩
    simp only [List.map_cons, List.nodup_cons] at hnd
    rw [scrubFields]
    rw [jsInsert_of_not_mem acc (scrubStr cfg k) (scrubObject cfg v)
      (hdisj _ (by simp))]
    rw [ih (acc ++ [(scrubStr cfg k, scrubObject cfg v)]) hnd.2 ?_]
    · simp
    · intro k2 hk2
      simp only [List.map_append, List.map_cons, List.map_nil, List.mem_append,
        List.mem_singleton]
      push_neg
      refine ⟨hdisj k2 (by simp [hk2]), ?_⟩
      intro hEq
      exact hnd.1 (hEq ▸ hk2)

/-- Clean keys scrub to themselves. -/
theorem fieldsClean_keys : ∀ fs, fieldsClean fs = true →
    fs.map (fun kv => scrubStr defaultConfig kv.1) = fs.map Prod.fst
  | [], _ => rfl
  | (k, v) :: t, h => by
    have h3 : stringClean k.data = true ∧ valueClean v = true ∧ fieldsClean t = true := by
      simpa [fieldsClean, Bool.and_eq_true, and_assoc] using h
    simp only [List.map_cons]
    rw [scrubStr_eq_of_clean k h3.1, fieldsClean_keys t h3.2.2]

mutual

/-- A clean value is a fixed point of `scrubObject` under the default
configuration. -/
theorem valueClean_fix : ∀ (v : Value), valueClean v = true →
    scrubObject defaultConfig v = v
  | .null, _ => rfl
  | .undef, _ => rfl
  | .bool _, _ => rfl
  | .num _, _ => rfl
  | .str s, h =>
    congrArg Value.str (scrubStr_eq_of_clean s (by simpa [valueClean] using h))
  | .arr xs, h =>
    congrArg Value.arr (listClean_fix xs (by simpa [valueClean] using h))
  | .obj fs, h => by
    have h2 : decide (fs.map Prod.fst).Nodup = true ∧ fieldsClean fs = true := by
      simpa [valueClean, Bool.and_eq_true] using h
    have hnd : (fs.map (fun kv => scrubStr defaultConfig kv.1)).Nodup := by
      rw [fieldsClean_keys fs h2.2]
      exact of_decide_eq_true h2.1
    show Value.obj (scrubFields defaultConfig fs []) = Value.obj fs
    rw [scrubFields_eq_append defaultConfig fs [] hnd (by simp)]
    rw [List.nil_append, fieldsClean_fix fs h2.2]

/-- Clean array members are fixed points, element-wise. -/
theorem listClean_fix : ∀ (xs : List Value), listClean xs = true →
    scrubList defaultConfig xs = xs
  | [], _ => rfl
  | v :: t, h => by
    have h2 : valueClean v = true ∧ listClean t = true := by
      simpa [listClean, Bool.and_eq_true] using h
    rw [scrubList, valueClean_fix v h2.1, listClean_fix t h2.2]

/-- Clean object entries are fixed points, entry-wise. -/
theorem fieldsClean_fix : ∀ (fs : List (String × Value)), fieldsClean fs = true →
    fs.map (fun kv => (scrubStr defaultConfig kv.1, scrubObject defaultConfig kv.2)) = fs
  | [], _ => rfl
  | (k, v) :: t, h => by
    have h3 : stringClean k.data = true ∧ valueClean v = true ∧ fieldsClean t = true := by
      simpa [fieldsClean, Bool.and_eq_true, and_assoc] using h
    simp only [List.map_cons]
    rw [scrubStr_eq_of_clean k h3.1, valueClean_fix v h3.2.1, fieldsClean_fix t h3.2.2]

end

/-! Section: Claim C1 -/

/-- C1 (counterexample): the input `"cc@dd.ee,cc@dd.api_key=ee"` contains
the well-formed email address `cc@dd.ee` (it is the email-pattern match at
position 0), yet the default-configuration scrub output still contains
that very address as a substring, and the output still contains an
email-pattern match — contradicting both parts of the claim that the
scrubbed output has no substring matching an enabled pattern and zero
occurrences of the address.  (The always-on credential rewrite re-inserts
its captured value `ee` right after the residual `cc@dd.`.) -/
theorem scrub_email_invariant_cex :
    matchAt emailRE none "cc@dd.ee,cc@dd.api_key=ee".data = some (8, none) ∧
    scrubStringL defaultConfig "cc@dd.ee,cc@dd.api_key=ee".data =
      "[REDACTED],cc@dd.ee: [REDACTED]".data ∧
    hasSubstr "cc@dd.ee".data "[REDACTED],cc@dd.ee: [REDACTED]".data = true ∧
    countMatches emailRE "[REDACTED],cc@dd.ee: [REDACTED]".data = 1 := by
  refine ⟨by decide, by decide, by decide, by decide⟩

/-- C1 (amended): whenever some position of the pre-redaction string
admits an email-pattern match, the email statistic of `getScrubStats` is
at least 1 (the statistic is computed on the original string); the
original claim's "no matching substring remains in the output" part is
false — later passes can re-create matches of enabled categories. -/
theorem scrub_email_stat_positive (s t a b : List Char) (hs : s = a ++ b)
    (hb : b ≠ []) (hm : matchAt emailRE a.getLast? b ≠ none) :
    1 ≤ (getScrubStats s t).emailsFound := by
  subst hs
  show 1 ≤ countMatches emailRE (a ++ b)
  exact countMatches_pos emailRE a b hb hm

/-- C1 witness: the amended theorem applied at the input `a@b.cc`. -/
theorem scrub_email_stat_positive_witness :
    "a@b.cc".data = [] ++ "a@b.cc".data ∧ "a@b.cc".data ≠ [] ∧
    matchAt emailRE ([] : List Char).getLast? "a@b.cc".data ≠ none ∧
    1 ≤ (getScrubStats "a@b.cc".data []).emailsFound :=
  ⟨rfl, by decide, by decide,
    scrub_email_stat_positive _ [] [] _ rfl (by decide) (by decide)⟩

/-! Section: Claim C2 -/

/-- C2: `scrubPII` returns the scrubbed hierarchical value itself — not a
`ScrubResult` record.  At the concrete input `{email: "a@b.cc"}` the
result is the scrubbed object, and reading the `scrubbedData`, `stats`
or `bytesReduced` properties of the result (as the generate command does)
yields `undefined` (`none`). -/
theorem scrubPII_returns_plain_value :
    scrubPII (.obj [("email", .str "a@b.cc")]) = .obj [("email", .str "[REDACTED]")] ∧
    lookupField (scrubPII (.obj [("email", .str "a@b.cc")])) "scrubbedData" = none ∧
    lookupField (scrubPII (.obj [("email", .str "a@b.cc")])) "stats" = none ∧
    lookupField (scrubPII (.obj [("email", .str "a@b.cc")])) "bytesReduced" = none :=
  ⟨rfl, rfl, rfl, rfl⟩

/-! Section: Claim C3 -/

/-- The configuration that disables every toggleable category and supplies
no custom patterns. -/
def allOffConfig : ScrubConfig where
  maskEmails := some false
  maskPhones := some false
  maskSSNs := some false
  maskCreditCards := some false
  maskIPAddresses := some false

/-- C3: the input `api_key=abc123` matches the credential-token pattern,
and the credential pass is applied even with every toggleable category
disabled — but the replacement template `` `$1: ${placeholder}` `` writes
the captured token value back, so the secret `abc123` survives verbatim in
the output (under the all-disabled and the default configuration alike). -/
theorem credential_value_survives_scrub :
    matchAt apiKeyRE none "api_key=abc123".data ≠ none ∧
    scrubString allOffConfig "api_key=abc123" = "abc123: [REDACTED]" ∧
    scrubString {} "api_key=abc123" = "abc123: [REDACTED]" ∧
    hasSubstr "abc123".data (scrubString allOffConfig "api_key=abc123").data = true :=
  ⟨by decide, by decide, by decide, by decide⟩

/-! Section: Claim C4 -/

/-- C4 (counterexample): scrubbing is not idempotent.  On the value
`"u@v.cc5551234567"` the phone pass replaces the digits and leaves
`u@v.cc[REDACTED]`, in which `u@v.cc` has become an email-pattern match
(the `[` restores the word boundary the digits had destroyed); a second
scrub therefore changes the value again. -/
theorem scrub_idempotence_cex :
    scrubObject defaultConfig (.str "u@v.cc5551234567") = .str "u@v.cc[REDACTED]" ∧
    scrubObject defaultConfig (scrubObject defaultConfig (.str "u@v.cc5551234567")) =
      .str "[REDACTED][REDACTED]" ∧
    scrubObject defaultConfig (scrubObject defaultConfig (.str "u@v.cc5551234567")) ≠
      scrubObject defaultConfig (.str "u@v.cc5551234567") := by
  refine ⟨rfl, rfl, fun hEq => ?_⟩
  have h3 : Value.str "[REDACTED][REDACTED]" = Value.str "u@v.cc[REDACTED]" := hEq
  exact absurd (Value.str.inj h3) (by decide)

/-- C4 (amended): a second scrub pass is a no-op provided the first pass's
output is clean — every string (leaf or key) admits no further match of
any applied pattern and object key lists are duplicate-free.  In general
the first pass's output need not be clean, so idempotence fails (see the
counterexample). -/
theorem scrub_idempotent_on_clean_output (v : Value)
    (h : valueClean (scrubObject defaultConfig v) = true) :
    scrubObject defaultConfig (scrubObject defaultConfig v) = scrubObject defaultConfig v :=
  valueClean_fix _ h

/-- C4 witness: the amended theorem applied at the value `"hi there"`. -/
theorem scrub_idempotent_on_clean_output_witness :
    valueClean (scrubObject defaultConfig (.str "hi there")) = true ∧
    scrubObject defaultConfig (scrubObject defaultConfig (.str "hi there")) =
      scrubObject defaultConfig (.str "hi there") :=
  ⟨by decide, scrub_idempotent_on_clean_output _ (by decide)⟩

/-! Section: Claim C5 -/

/-- Number of entries of an object value. -/
def objEntryCount : Value → Nat
  | .obj fs => fs.length
  | _ => 0

/-- C5 (counterexample): `scrubObject` is not structurally isomorphic on
objects whose keys collide after scrubbing: both keys of
`{a@b.cc: 1, c@d.ee: 2}` scrub to `[REDACTED]`, the second assignment
overwrites the first, and the output object has one entry instead of
two. -/
theorem scrubObject_collision_cex :
    scrubObject defaultConfig (.obj [("a@b.cc", .num 1), ("c@d.ee", .num 2)]) =
      .obj [("[REDACTED]", .num 2)] ∧
    objEntryCount (.obj [("a@b.cc", .num 1), ("c@d.ee", .num 2)]) = 2 ∧
    objEntryCount (scrubObject defaultConfig
      (.obj [("a@b.cc", .num 1), ("c@d.ee", .num 2)])) = 1 :=
  ⟨rfl, rfl, rfl⟩

/-- C5 (amended): `scrubObject` passes null/undefined and numbers/booleans
through unchanged, scrubs string leaves, maps sequences element-wise
preserving order and length, and rebuilds objects with scrubbed keys —
entry-wise (hence structurally isomorphic) provided the scrubbed keys are
pairwise distinct; colliding scrubbed keys are overwritten (see the
counterexample).  The embedding is pure, so the input is never mutated. -/
theorem scrubObject_structure (cfg : ResolvedConfig) :
    scrubObject cfg .null = .null ∧ scrubObject cfg .undef = .undef ∧
    (∀ b, scrubObject cfg (.bool b) = .bool b) ∧
    (∀ n, scrubObject cfg (.num n) = .num n) ∧
    (∀ s, scrubObject cfg (.str s) = .str (scrubStr cfg s)) ∧
    (∀ xs, scrubObject cfg (.arr xs) = .arr (xs.map (scrubObject cfg)) ∧
      (xs.map (scrubObject cfg)).length = xs.length) ∧
    (∀ fs, (fs.map (fun kv => scrubStr cfg kv.1)).Nodup →
      scrubObject cfg (.obj fs) =
        .obj (fs.map (fun kv => (scrubStr cfg kv.1, scrubObject cfg kv.2)))) := by
  refine ⟨rfl, rfl, fun b => rfl, fun n => rfl, fun s => rfl,
    fun xs => ⟨?_, by simp⟩, fun fs hnd => ?_⟩
  · exact congrArg Value.arr (scrubList_eq_map cfg xs)
  · show Value.obj (scrubFields cfg fs []) = _
    rw [scrubFields_eq_append cfg fs [] hnd (by simp), List.nil_append]

/-- C5 witness: the object part of the amended theorem applied at
`{a: 1}`, whose single scrubbed key is trivially duplicate-free. -/
theorem scrubObject_structure_witness :
    (([("a", Value.num 1)].map (fun kv => scrubStr defaultConfig kv.1)).Nodup) ∧
    scrubObject defaultConfig (.obj [("a", .num 1)]) =
      .obj ([("a", Value.num 1)].map
        (fun kv => (scrubStr defaultConfig kv.1, scrubObject defaultConfig kv.2))) :=
  ⟨by simp, (scrubObject_structure defaultConfig).2.2.2.2.2.2 _ (by simp)⟩

/-! Section: Claim C6: the structural sample -/

/-- The `typeof` tags a sample may contain as string leaves. -/
def isTypeTag (s : String) : Bool :=
  s == "object" || s == "undefined" || s == "boolean" || s == "number" || s == "string"

mutual

/-- The string leaves of a value (object keys are not leaves). -/
def stringLeaves : Value → List String
  | .str s => [s]
  | .arr xs => stringLeavesList xs
  | .obj fs => stringLeavesFields fs
  | _ => []

/-- String leaves of an array's members. -/
def stringLeavesList : List Value → List String
  | [] => []
  | v :: t => stringLeaves v ++ stringLeavesList t

/-- String leaves of an object's values. -/
def stringLeavesFields : List (String × Value) → List String
  | [] => []
  | (_, v) :: t => stringLeaves v ++ stringLeavesFields t

end

mutual

/-- Container nesting depth: scalars are depth 0, a container is one more
than its deepest child. -/
def valueDepth : Value → Nat
  | .arr xs => 1 + listDepth xs
  | .obj fs => 1 + fieldsDepth fs
  | _ => 0

/-- Depth of the deepest member. -/
def listDepth : List Value → Nat
  | [] => 0
  | v :: t => max (valueDepth v) (listDepth t)

/-- Depth of the deepest entry value. -/
def fieldsDepth : List (String × Value) → Nat
  | [] => 0
  | (_, v) :: t => max (valueDepth v) (fieldsDepth t)

end

mutual

/-- Every object node in the value has at most `n` entries. -/
def objBounded (n : Nat) : Value → Bool
  | .arr xs => objBoundedList n xs
  | .obj fs => decide (fs.length ≤ n) && objBoundedFields n fs
  | _ => true

/-- The `objBounded` over array members. -/
def objBoundedList (n : Nat) : List Value → Bool
  | [] => true
  | v :: t => objBounded n v && objBoundedList n t

/-- The `objBounded` over object entry values. -/
def objBoundedFields (n : Nat) : List (String × Value) → Bool
  | [] => true
  | (_, v) :: t => objBounded n v && objBoundedFields n t

end

mutual

/-- Shape invariant of `createDataSample` outputs with remaining depth
budget `d`: string leaves are type tags, raw scalars never occur, and
containers require budget and respect it one level down with at most 5
object entries. -/
def sampleGood (d : Nat) : Value → Bool
  | .str s => isTypeTag s
  | .arr xs => decide (0 < d) && sampleGoodList (d - 1) xs
  | .obj fs => decide (0 < d) && decide (fs.length ≤ 5) && sampleGoodFields (d - 1) fs
  | _ => false

/-- The `sampleGood` over array members. -/
def sampleGoodList (d : Nat) : List Value → Bool
  | [] => true
  | v :: t => sampleGood d v && sampleGoodList d t

/-- The `sampleGood` over object entry values. -/
def sampleGoodFields (d : Nat) : List (String × Value) → Bool
  | [] => true
  | (_, v) :: t => sampleGood d v && sampleGoodFields d t

end

/-- The `typeof` always produces a type tag. -/
theorem isTypeTag_jsTypeof (v : Value) : isTypeTag (jsTypeof v) = true := by
  cases v <;> rfl

/-- JS assignment grows an entry list by at most one entry. -/
theorem jsInsert_length_le :
    ∀ (acc : List (String × Value)) (k : String) (v : Value),
      (jsInsert acc k v).length ≤ acc.length + 1 := by
  intro acc
  induction acc with
  | nil => intro k v; simp [jsInsert]
  | cons kv t ih =>
    intro k v
    rcases kv with ⟨k2, v2⟩
    simp only [jsInsert]
    split
    · simp
    · simpa using Nat.succ_le_succ (ih k v)

/-- JS assignment preserves value-goodness of an entry list. -/
theorem sampleGoodFields_jsInsert (d : Nat) :
    ∀ (acc : List (String × Value)) (k : String) (v : Value),
      sampleGoodFields d acc = true → sampleGood d v = true →
      sampleGoodFields d (jsInsert acc k v) = true := by
  intro acc
  induction acc with
  | nil => intro k v _ hv; simpa [jsInsert, sampleGoodFields] using hv
  | cons kv t ih =>
    intro k v ha hv
    rcases kv with ⟨k2, v2⟩
    simp only [sampleGoodFields, Bool.and_eq_true] at ha
    simp only [jsInsert]
    split
    · simp [sampleGoodFields, hv, ha.2]
    · simp [sampleGoodFields, ha.1, ih k v ha.2 hv]

mutual

/-- The `createDataSample` always produces a good sample for the remaining
budget `maxDepth - currentDepth`. -/
theorem createDataSample_good : ∀ (v : Value) (m c : Nat),
    sampleGood (m - c) (createDataSample v m c) = true
  | .null, m, c => by
    rw [createDataSample.eq_def]
    by_cases h : (decide (m ≤ c) || isNullish Value.null) = true
    · rw [if_pos h]; exact isTypeTag_jsTypeof _
    · rw [if_neg h]; exact isTypeTag_jsTypeof _
  | .undef, m, c => by
    rw [createDataSample.eq_def]
    by_cases h : (decide (m ≤ c) || isNullish Value.undef) = true
    · rw [if_pos h]; exact isTypeTag_jsTypeof _
    · rw [if_neg h]; exact isTypeTag_jsTypeof _
  | .bool b, m, c => by
    rw [createDataSample.eq_def]
    by_cases h : (decide (m ≤ c) || isNullish (Value.bool b)) = true
    · rw [if_pos h]; exact isTypeTag_jsTypeof _
    · rw [if_neg h]; exact isTypeTag_jsTypeof _
  | .num n, m, c => by
    rw [createDataSample.eq_def]
    by_cases h : (decide (m ≤ c) || isNullish (Value.num n)) = true
    · rw [if_pos h]; exact isTypeTag_jsTypeof _
    · rw [if_neg h]; exact isTypeTag_jsTypeof _
  | .str s, m, c => by
    rw [createDataSample.eq_def]
    by_cases h : (decide (m ≤ c) || isNullish (Value.str s)) = true
    · rw [if_pos h]; exact isTypeTag_jsTypeof _
    · rw [if_neg h]; exact isTypeTag_jsTypeof _
  | .arr [], m, c => by
    rw [createDataSample.eq_def]
    by_cases h : (decide (m ≤ c) || isNullish (Value.arr [])) = true
    · rw [if_pos h]; exact isTypeTag_jsTypeof _
    · rw [if_neg h]
      have hmc : ¬ m ≤ c := by simpa [isNullish] using h
      show sampleGood (m - c) (.arr []) = true
      simp [sampleGood, sampleGoodList]
      omega
  | .arr (x :: t), m, c => by
    rw [createDataSample.eq_def]
    by_cases h : (decide (m ≤ c) || isNullish (Value.arr (x :: t))) = true
    · rw [if_pos h]; exact isTypeTag_jsTypeof _
    · rw [if_neg h]
      have hmc : ¬ m ≤ c := by simpa [isNullish] using h
      have hx := createDataSample_good x m (c + 1)
      show sampleGood (m - c) (.arr [createDataSample x m (c + 1)]) = true
      simp only [sampleGood, sampleGoodList, Bool.and_eq_true, decide_eq_true_eq]
      refine ⟨by omega, ?_, trivial⟩
      rw [show m - c - 1 = m - (c + 1) by omega]
      exact hx
  | .obj fs, m, c => by
    rw [createDataSample.eq_def]
    by_cases h : (decide (m ≤ c) || isNullish (Value.obj fs)) = true
    · rw [if_pos h]; exact isTypeTag_jsTypeof _
    · rw [if_neg h]
      have hmc : ¬ m ≤ c := by simpa [isNullish] using h
      have hsf := sampleFields_good fs m c 0 [] (by omega) (by simp) rfl
      show sampleGood (m - c) (.obj (sampleFields fs m c 0 [])) = true
      simp only [sampleGood, Bool.and_eq_true, decide_eq_true_eq]
      refine ⟨⟨by omega, hsf.1⟩, ?_⟩
      rw [show m - c - 1 = m - (c + 1) by omega]
      exact hsf.2

/-- The sampling loop keeps at most 5 entries, all of them good samples. -/
theorem sampleFields_good : ∀ (fs : List (String × Value)) (m c count : Nat)
    (acc : List (String × Value)), count ≤ 5 → acc.length ≤ count →
    sampleGoodFields (m - (c + 1)) acc = true →
    (sampleFields fs m c count acc).length ≤ 5 ∧
      sampleGoodFields (m - (c + 1)) (sampleFields fs m c count acc) = true
  | [], m, c, count, acc, h5, hlen, hgood => by
    rw [sampleFields]
    exact ⟨le_trans hlen h5, hgood⟩
  | (k, v) :: t, m, c, count, acc, h5, hlen, hgood => by
    rw [sampleFields]
    split
    · exact ⟨le_trans hlen h5, hgood⟩
    · next hc =>
      refine sampleFields_good t m c (count + 1)
        (jsInsert acc k (createDataSample v m (c + 1))) (by omega) ?_ ?_
      · have := jsInsert_length_le acc k (createDataSample v m (c + 1))
        omega
      · exact sampleGoodFields_jsInsert _ acc k _ hgood (createDataSample_good v m (c + 1))

end

mutual

/-- Good samples have only type-tag string leaves. -/
theorem sampleGood_leaves : ∀ (v : Value) (d : Nat),
    sampleGood d v = true → (stringLeaves v).all isTypeTag = true
  | .null, _, _ => rfl
  | .undef, _, _ => rfl
  | .bool _, _, _ => rfl
  | .num _, _, _ => rfl
  | .str s, d, h => by simpa [stringLeaves, sampleGood] using h
  | .arr xs, d, h => by
    have h2 : sampleGoodList (d - 1) xs = true := by
      simpa [sampleGood, Bool.and_eq_true] using (by simpa [sampleGood] using h : _ ∧ _).2
    simpa [stringLeaves] using sampleGoodList_leaves xs (d - 1) h2
  | .obj fs, d, h => by
    have h2 : sampleGoodFields (d - 1) fs = true := by
      have := (by simpa [sampleGood, Bool.and_eq_true] using h :
        ((0 < d) ∧ fs.length ≤ 5) ∧ sampleGoodFields (d - 1) fs = true)
      exact this.2
    simpa [stringLeaves] using sampleGoodFields_leaves fs (d - 1) h2

/-- The `sampleGood_leaves` over array members. -/
theorem sampleGoodList_leaves : ∀ (xs : List Value) (d : Nat),
    sampleGoodList d xs = true → (stringLeavesList xs).all isTypeTag = true
  | [], _, _ => rfl
  | v :: t, d, h => by
    have h2 : sampleGood d v = true ∧ sampleGoodList d t = true := by
      simpa [sampleGoodList, Bool.and_eq_true] using h
    simp [stringLeavesList, List.all_append, sampleGood_leaves v d h2.1,
      sampleGoodList_leaves t d h2.2]

/-- The `sampleGood_leaves` over object entries. -/
theorem sampleGoodFields_leaves : ∀ (fs : List (String × Value)) (d : Nat),
    sampleGoodFields d fs = true → (stringLeavesFields fs).all isTypeTag = true
  | [], _, _ => rfl
  | (_, v) :: t, d, h => by
    have h2 : sampleGood d v = true ∧ sampleGoodFields d t = true := by
      simpa [sampleGoodFields, Bool.and_eq_true] using h
    simp [stringLeavesFields, List.all_append, sampleGood_leaves v d h2.1,
      sampleGoodFields_leaves t d h2.2]

end

mutual

/-- Good samples respect the depth budget. -/
theorem sampleGood_depth : ∀ (v : Value) (d : Nat),
    sampleGood d v = true → valueDepth v ≤ d
  | .null, _, _ => by simp [valueDepth]
  | .undef, _, _ => by simp [valueDepth]
  | .bool _, _, _ => by simp [valueDepth]
  | .num _, _, _ => by simp [valueDepth]
  | .str _, _, _ => by simp [valueDepth]
  | .arr xs, d, h => by
    have h2 : (0 < d) ∧ sampleGoodList (d - 1) xs = true := by
      simpa [sampleGood, Bool.and_eq_true, decide_eq_true_eq] using h
    have := sampleGoodList_depth xs (d - 1) h2.2
    simp only [valueDepth]
    omega
  | .obj fs, d, h => by
    have h2 : ((0 < d) ∧ fs.length ≤ 5) ∧ sampleGoodFields (d - 1) fs = true := by
      simpa [sampleGood, Bool.and_eq_true, decide_eq_true_eq] using h
    have := sampleGoodFields_depth fs (d - 1) h2.2
    simp only [valueDepth]
    omega

/-- The `sampleGood_depth` over array members. -/
theorem sampleGoodList_depth : ∀ (xs : List Value) (d : Nat),
    sampleGoodList d xs = true → listDepth xs ≤ d
  | [], _, _ => by simp [listDepth]
  | v :: t, d, h => by
    have h2 : sampleGood d v = true ∧ sampleGoodList d t = true := by
      simpa [sampleGoodList, Bool.and_eq_true] using h
    have ha := sampleGood_depth v d h2.1
    have hb := sampleGoodList_depth t d h2.2
    simp only [listDepth]
    omega

/-- The `sampleGood_depth` over object entries. -/
theorem sampleGoodFields_depth : ∀ (fs : List (String × Value)) (d : Nat),
    sampleGoodFields d fs = true → fieldsDepth fs ≤ d
  | [], _, _ => by simp [fieldsDepth]
  | (_, v) :: t, d, h => by
    have h2 : sampleGood d v = true ∧ sampleGoodFields d t = true := by
      simpa [sampleGoodFields, Bool.and_eq_true] using h
    have ha := sampleGood_depth v d h2.1
    have hb := sampleGoodFields_depth t d h2.2
    simp only [fieldsDepth]
    omega

end

mutual

/-- Good samples have at most 5 entries in every object node. -/
theorem sampleGood_bounded : ∀ (v : Value) (d : Nat),
    sampleGood d v = true → objBounded 5 v = true
  | .null, _, _ => rfl
  | .undef, _, _ => rfl
  | .bool _, _, _ => rfl
  | .num _, _, _ => rfl
  | .str _, _, _ => rfl
  | .arr xs, d, h => by
    have h2 : (0 < d) ∧ sampleGoodList (d - 1) xs = true := by
      simpa [sampleGood, Bool.and_eq_true, decide_eq_true_eq] using h
    simpa [objBounded] using sampleGoodList_bounded xs (d - 1) h2.2
  | .obj fs, d, h => by
    have h2 : ((0 < d) ∧ fs.length ≤ 5) ∧ sampleGoodFields (d - 1) fs = true := by
      simpa [sampleGood, Bool.and_eq_true, decide_eq_true_eq] using h
    simp [objBounded, h2.1.2, sampleGoodFields_bounded fs (d - 1) h2.2]

/-- The `sampleGood_bounded` over array members. -/
theorem sampleGoodList_bounded : ∀ (xs : List Value) (d : Nat),
    sampleGoodList d xs = true → objBoundedList 5 xs = true
  | [], _, _ => rfl
  | v :: t, d, h => by
    have h2 : sampleGood d v = true ∧ sampleGoodList d t = true := by
      simpa [sampleGoodList, Bool.and_eq_true] using h
    simp [objBoundedList, sampleGood_bounded v d h2.1, sampleGoodList_bounded t d h2.2]

/-- The `sampleGood_bounded` over object entries. -/
theorem sampleGoodFields_bounded : ∀ (fs : List (String × Value)) (d : Nat),
    sampleGoodFields d fs = true → objBoundedFields 5 fs = true
  | [], _, _ => rfl
  | (_, v) :: t, d, h => by
    have h2 : sampleGood d v = true ∧ sampleGoodFields d t = true := by
      simpa [sampleGoodFields, Bool.and_eq_true] using h
    simp [objBoundedFields, sampleGood_bounded v d h2.1, sampleGoodFields_bounded t d h2.2]

end

/-- C6: the structural sample the classifier sends out contains only
`typeof` tags as string leaves (never a raw string leaf of the input),
nests containers at most 2 deep, and keeps at most 5 entries per object
level. -/
theorem createDataSample_defense (v : Value) :
    (stringLeaves (createDataSample v 2 0)).all isTypeTag = true ∧
    valueDepth (createDataSample v 2 0) ≤ 2 ∧
    objBounded 5 (createDataSample v 2 0) = true := by
  have h := createDataSample_good v 2 0
  exact ⟨sampleGood_leaves _ _ h, sampleGood_depth _ _ h, sampleGood_bounded _ _ h⟩

/-! Section: Claim C7 -/

/-- C7: every parsed record with a missing required attribute is excluded
from the validated classifications; `totalFields` is the extracted
field-path count regardless of how many records survived; the
high-sensitivity count counts exactly the surviving records with
sensitivity `high`. -/
theorem classify_validation (fieldPaths : List String)
    (parsed : List GDPRClassification) (elapsed : Nat) :
    (∀ c ∈ parsed,
      (c.field = none ∨ c.article = none ∨ c.reasoning = none ∨
        c.dataType = none ∨ c.sensitivity = none) →
      c ∉ (processClassifications fieldPaths parsed elapsed).classifications) ∧
    (processClassifications fieldPaths parsed elapsed).summary.totalFields =
      fieldPaths.length ∧
    (processClassifications fieldPaths parsed elapsed).summary.highSensitivityFields =
      ((processClassifications fieldPaths parsed elapsed).classifications.filter
        (fun c => c.sensitivity = some "high")).length := by
  refine ⟨?_, rfl, rfl⟩
  intro c _ hmiss hmem
  have hval : isValidClassification c = true := (List.mem_filter.mp hmem).2
  rcases hmiss with h | h | h | h | h <;>
    simp [isValidClassification, attrTruthy, h] at hval

/-- C7 witness: the spec scenario — a response record missing
`sensitivity` is dropped while `totalFields` still counts all three
extracted paths. -/
theorem classify_validation_witness :
    (⟨some "g", some "Art. 9", some "r", some "behavioral", none⟩ : GDPRClassification) ∉
      (processClassifications ["a", "b", "c"]
        [⟨some "f", some "Art. 6", some "r", some "contact", some "high"⟩,
         ⟨some "g", some "Art. 9", some "r", some "behavioral", none⟩] 0).classifications ∧
    (processClassifications ["a", "b", "c"]
        [⟨some "f", some "Art. 6", some "r", some "contact", some "high"⟩,
         ⟨some "g", some "Art. 9", some "r", some "behavioral", none⟩] 0).summary.totalFields = 3 :=
  ⟨(classify_validation ["a", "b", "c"] _ 0).1 _ (by simp)
      (Or.inr (Or.inr (Or.inr (Or.inr rfl)))),
    (classify_validation ["a", "b", "c"] _ 0).2.1⟩

/-! Section: Claim C8 -/

/-- The chunk loop on an empty list yields no chunks, for any fuel. -/
theorem chunksGoF_nil (k fuel : Nat) : chunksGoF (α := α) k fuel [] = [] := by
  cases fuel <;> rfl

/-- Partition properties of the chunk loop: the chunks concatenate back to
the input, every chunk is nonempty and at most `k` long, and every chunk
but the last is exactly `k` long. -/
theorem chunksGoF_spec (k : Nat) (hk : 1 ≤ k) :
    ∀ (fuel : Nat) (l : List α), l.length ≤ fuel →
      (chunksGoF k fuel l).flatten = l ∧
      (∀ c ∈ chunksGoF k fuel l, c ≠ [] ∧ c.length ≤ k) ∧
      (∀ c ∈ (chunksGoF k fuel l).dropLast, c.length = k) := by
  intro fuel
  induction fuel with
  | zero =>
    intro l hl
    have hnil : l = [] := List.length_eq_zero.mp (Nat.le_zero.mp hl)
    subst hnil
    simp [chunksGoF_nil]
  | succ f ih =>
    intro l hl
    cases l with
    | nil => simp [chunksGoF_nil]
    | cons x t =>
      rw [chunksGoF]
      have hdrop : ((x :: t).drop k).length ≤ f := by
        simp only [List.length_drop, List.length_cons]
        simp only [List.length_cons] at hl
        omega
      obtain ⟨hjoin, hmem, hlast⟩ := ih ((x :: t).drop k) hdrop
      obtain ⟨k', rfl⟩ : ∃ k', k = k' + 1 := ⟨k - 1, by omega⟩
      refine ⟨?_, ?_, ?_⟩
      · show (x :: t).take (k' + 1) ++ (chunksGoF (k' + 1) f ((x :: t).drop (k' + 1))).flatten
          = x :: t
        rw [hjoin]
        exact List.take_append_drop (k' + 1) (x :: t)
      · intro c hc
        rcases List.mem_cons.mp hc with rfl | hc2
        · constructor
          · simp [List.take]
          · simp only [List.length_take]
            omega
        · exact hmem c hc2
      · cases hrec : chunksGoF (k' + 1) f ((x :: t).drop (k' + 1)) with
        | nil => simp [hrec, List.dropLast]
        | cons y ys =>
          rw [hrec] at hlast
          simp only [List.dropLast]
          intro c hc
          rcases List.mem_cons.mp hc with rfl | hc2
          · have hne : (x :: t).drop (k' + 1) ≠ [] := by
              intro hnil
              rw [hnil, chunksGoF_nil] at hrec
              cases hrec
            have hlen : k' + 1 < (x :: t).length := by
              by_contra hle
              exact hne (List.drop_eq_nil_of_le (by omega))
            simp only [List.length_take]
            omega
          · exact hlast c hc2

/-- A constant-in-index sequential worker is just a map. -/
theorem processSequentiallyGo_const (f : α → β) :
    ∀ (l : List α) (i : Nat), processSequentiallyGo (fun x _ => f x) i l = l.map f
  | [], _ => rfl
  | x :: t, i => by
    rw [processSequentiallyGo, processSequentiallyGo_const f t (i + 1)]
    rfl

/-- Mapping chunk-wise and concatenating is mapping the concatenation. -/
theorem flatMap_map_eq_map_flatten (f : α → β) :
    ∀ L : List (List α), L.flatMap (List.map f) = L.flatten.map f
  | [] => rfl
  | c :: t => by
    simp only [List.flatMap_cons, flatMap_map_eq_map_flatten f t]
    show List.map f c ++ t.flatten.map f = (c ++ t.flatten).map f
    rw [List.map_append]

/-- C8: for `K ≥ 1`, `processInChunks` partitions the items into
contiguous, non-overlapping, in-order chunks (last possibly shorter) and,
when the chunk worker is the element-wise lifting of the item worker,
produces exactly the ordered result sequence of `processSequentially`. -/
theorem processInChunks_refines (items : List α) (k : Nat) (hk : 1 ≤ k)
    (f : α → β) :
    processInChunks items k (List.map f) =
      processSequentially items (fun x _ => f x) ∧
    (chunksGo k items).flatten = items ∧
    (∀ c ∈ chunksGo k items, c ≠ [] ∧ c.length ≤ k) ∧
    (∀ c ∈ (chunksGo k items).dropLast, c.length = k) := by
  have hk0 : ¬ k = 0 := by omega
  have hspec := chunksGoF_spec k hk items.length items le_rfl
  have hchunks : chunksGo k items = chunksGoF k items.length items := by
    simp [chunksGo, hk0]
  refine ⟨?_, by rw [hchunks]; exact hspec.1, by rw [hchunks]; exact hspec.2.1,
    by rw [hchunks]; exact hspec.2.2⟩
  unfold processInChunks processSequentially
  rw [hchunks, flatMap_map_eq_map_flatten, hspec.1, processSequentiallyGo_const]

/-- C8 witness: seven items in chunks of three. -/
theorem processInChunks_refines_witness :
    (1 : Nat) ≤ 3 ∧
    processInChunks [1, 2, 3, 4, 5, 6, 7] 3 (List.map (· * 10)) =
      processSequentially [1, 2, 3, 4, 5, 6, 7] (fun x _ => x * 10) :=
  ⟨by decide,
    (processInChunks_refines [1, 2, 3, 4, 5, 6, 7] 3 (by decide) (· * 10)).1⟩

/-! Section: Claim C9 -/

/-- A scalar value (string, number or boolean). -/
def isScalarValue : Value → Bool
  | .bool _ => true
  | .num _ => true
  | .str _ => true
  | _ => false

/-- C9: field-path extraction on a null or scalar root is empty and makes
classification return the empty result before any service call; on
`{a: {b: 1}}` the extracted paths are exactly `a` and `a.b`. -/
theorem extract_scalar_empty :
    (extractFieldPaths .null "" = [] ∧
      (∀ t, classifyDataPre .null t = .early (emptyClassificationResult t))) ∧
    (∀ v, isScalarValue v = true →
      extractFieldPaths v "" = [] ∧
      ∀ t, classifyDataPre v t = .early (emptyClassificationResult t)) ∧
    extractFieldPaths (.obj [("a", .obj [("b", .num 1)])]) "" = ["a", "a.b"] := by
  refine ⟨⟨rfl, fun t => rfl⟩, ?_, by decide⟩
  intro v hv
  cases v with
  | bool b => exact ⟨rfl, fun t => rfl⟩
  | num n => exact ⟨rfl, fun t => rfl⟩
  | str s => exact ⟨rfl, fun t => rfl⟩
  | null => cases hv
  | undef => cases hv
  | arr xs => cases hv
  | obj fs => cases hv

/-- C9 witness: the theorem applied at the scalar `7`. -/
theorem extract_scalar_empty_witness :
    isScalarValue (.num 7) = true ∧
    extractFieldPaths (.num 7) "" = [] ∧
    classifyDataPre (.num 7) 5 = .early (emptyClassificationResult 5) :=
  ⟨rfl, (extract_scalar_empty.2.1 (.num 7) rfl).1,
    (extract_scalar_empty.2.1 (.num 7) rfl).2 5⟩

/-! Section: Claim C10 -/

/-- The per-file loop deletes exactly the old evidence files, keeps
everything else in order, and accumulates the deleted names, count and
freed bytes. -/
theorem cleanupGo_spec (cutoff : Int) :
    ∀ (files : List FsFile) (res : CleanupResult),
      (cleanupGo cutoff files res).1 =
        files.filter (fun f => !(isEvidenceFile f.name && decide (f.mtimeMs < cutoff))) ∧
      (cleanupGo cutoff files res).2.deletedFiles = res.deletedFiles ++
        (files.filter (fun f => isEvidenceFile f.name && decide (f.mtimeMs < cutoff))).map (·.name) ∧
      (cleanupGo cutoff files res).2.filesDeleted = res.filesDeleted +
        (files.filter (fun f => isEvidenceFile f.name && decide (f.mtimeMs < cutoff))).length ∧
      (cleanupGo cutoff files res).2.totalSizeFreed = res.totalSizeFreed +
        ((files.filter (fun f => isEvidenceFile f.name && decide (f.mtimeMs < cutoff))).map (·.size)).sum ∧
      (cleanupGo cutoff files res).2.errors = res.errors := by
  intro files
  induction files with
  | nil => intro res; simp [cleanupGo]
  | cons f t ih =>
    intro res
    rw [cleanupGo]
    by_cases he : isEvidenceFile f.name
    · by_cases hm : f.mtimeMs < cutoff
      · rw [if_pos he, if_pos hm]
        obtain ⟨h1, h2, h3, h4, h5⟩ := ih
          { res with filesScanned := res.filesScanned + 1,
                     filesDeleted := res.filesDeleted + 1,
                     deletedFiles := res.deletedFiles ++ [f.name],
                     totalSizeFreed := res.totalSizeFreed + f.size }
        refine ⟨?_, ?_, ?_, ?_, ?_⟩
        · rw [h1]
          simp [List.filter_cons, he, hm]
        · rw [h2]
          simp [List.filter_cons, he, hm]
        · rw [h3]
          simp [List.filter_cons, he, hm]
          omega
        · rw [h4]
          simp [List.filter_cons, he, hm]
          omega
        · rw [h5]
      · rw [if_pos he, if_neg hm]
        obtain ⟨h1, h2, h3, h4, h5⟩ := ih { res with filesScanned := res.filesScanned + 1 }
        refine ⟨?_, ?_, ?_, ?_, ?_⟩
        · rw [h1]
          simp [List.filter_cons, he, hm]
        · rw [h2]
          simp [List.filter_cons, he, hm]
        · rw [h3]
          simp [List.filter_cons, he, hm]
        · rw [h4]
          simp [List.filter_cons, he, hm]
        · rw [h5]
    · rw [if_neg he]
      obtain ⟨h1, h2, h3, h4, h5⟩ := ih res
      refine ⟨?_, ?_, ?_, ?_, ?_⟩
      · rw [h1]
        simp [List.filter_cons, he]
      · rw [h2]
        simp [List.filter_cons, he]
      · rw [h3]
        simp [List.filter_cons, he]
      · rw [h4]
        simp [List.filter_cons, he]
      · rw [h5]

/-- C10: on an existing directory, startup cleanup removes exactly the
files whose names match an evidence-artifact pattern and whose
modification time is strictly older than the age cutoff; all other files
remain, in order, and the reported count, names and freed bytes are those
of the removed files (no errors in the error-free filesystem model). -/
theorem cleanup_frame (files : List FsFile) (nowMs : Int) (maxAgeHours : Nat) :
    (cleanupOldFiles ⟨true, files⟩ nowMs maxAgeHours).1.files =
      files.filter (fun f => !(isEvidenceFile f.name &&
        decide (f.mtimeMs < nowMs - (maxAgeHours : Int) * 3600000))) ∧
    (cleanupOldFiles ⟨true, files⟩ nowMs maxAgeHours).2.deletedFiles =
      (files.filter (fun f => isEvidenceFile f.name &&
        decide (f.mtimeMs < nowMs - (maxAgeHours : Int) * 3600000))).map (·.name) ∧
    (cleanupOldFiles ⟨true, files⟩ nowMs maxAgeHours).2.filesDeleted =
      (files.filter (fun f => isEvidenceFile f.name &&
        decide (f.mtimeMs < nowMs - (maxAgeHours : Int) * 3600000))).length ∧
    (cleanupOldFiles ⟨true, files⟩ nowMs maxAgeHours).2.totalSizeFreed =
      ((files.filter (fun f => isEvidenceFile f.name &&
        decide (f.mtimeMs < nowMs - (maxAgeHours : Int) * 3600000))).map (·.size)).sum ∧
    (cleanupOldFiles ⟨true, files⟩ nowMs maxAgeHours).2.errors = [] := by
  obtain ⟨h1, h2, h3, h4, h5⟩ :=
    cleanupGo_spec (nowMs - (maxAgeHours : Int) * 3600000) files emptyCleanupResult
  exact ⟨h1, by simpa [emptyCleanupResult] using h2, by simpa [emptyCleanupResult] using h3,
    by simpa [emptyCleanupResult] using h4, by simpa [emptyCleanupResult] using h5⟩

end Autopv
